import Mathlib

/-!
Shallow embedding of the subtitle-transcription core of the repository
(`src/lib/srt-utils.ts`, the stage-merge logic of
`src/utils/stage-merger.test.ts`, and the job pipeline of
`src/components/SrtFileCard.tsx`), together with theorems settling the
frozen claims about it.

Strings are modelled as `List Char` (`Str`).  JavaScript string
operations used by the source (`trim`, `split`, `parseInt`, template
stringification, the time-line regex search) are modelled character by
character below; every model is structural recursion so that closed
instances evaluate by `decide` / `rfl`.
-/

abbrev Str := List Char

/-- JavaScript whitespace (the set trimmed by `String.prototype.trim` and
skipped by `parseInt`): TAB, LF, VT, FF, CR, SP, NBSP and the Unicode
space separators, line separators and BOM. -/
def jsWs (c : Char) : Bool :=
  let n := c.toNat
  n = 32 || n = 9 || n = 10 || n = 11 || n = 12 || n = 13 || n = 160 ||
  n = 0x1680 || (0x2000 ≤ n && n ≤ 0x200A) || n = 0x2028 || n = 0x2029 ||
  n = 0x202F || n = 0x205F || n = 0x3000 || n = 0xFEFF

/-- Model of `s.trim()`: drop JS whitespace from both ends. -/
def jsTrim (s : Str) : Str :=
  ((s.dropWhile jsWs).reverse.dropWhile jsWs).reverse

/-- Prepend a character to the first piece of a split result. -/
def consHead (c : Char) : List Str → List Str
  | [] => [[c]]
  | r :: rs => (c :: r) :: rs

/-- Model of `s.split(sep)` for a single-character separator. -/
def splitOnChar (sep : Char) : Str → List Str
  | [] => [[]]
  | c :: rest =>
    if c = sep then [] :: splitOnChar sep rest
    else consHead c (splitOnChar sep rest)

/-- Model of `s.split('\n\n')` (leftmost, non-overlapping occurrences of
the two-character separator, as JavaScript splits). -/
def splitOnNN : Str → List Str
  | [] => [[]]
  | [c] => [[c]]
  | c₁ :: c₂ :: rest =>
    if c₁ = '\n' ∧ c₂ = '\n' then [] :: splitOnNN rest
    else consHead c₁ (splitOnNN (c₂ :: rest))

/-- Model of `pieces.join(sep)`. -/
def joinSep (sep : Str) : List Str → Str
  | [] => []
  | [x] => x
  | x :: y :: rest => x ++ sep ++ joinSep sep (y :: rest)

/-- ASCII digit, the `\d` class of the source's regexes. -/
def isDigit (c : Char) : Bool := 48 ≤ c.toNat && c.toNat ≤ 57

def digitVal (c : Char) : Nat := c.toNat - 48

/-- Decimal value of a digit string, accumulator style (the value
`Number()` / `parseInt` denote on an all-digit string). -/
def decValFrom (a : Nat) : Str → Nat
  | [] => a
  | c :: rest => decValFrom (10 * a + digitVal c) rest

def isHexDigit (c : Char) : Bool :=
  isDigit c || (65 ≤ c.toNat && c.toNat ≤ 70) || (97 ≤ c.toNat && c.toNat ≤ 102)

def hexDigitVal (c : Char) : Nat :=
  if c.toNat ≤ 57 then c.toNat - 48
  else if c.toNat ≤ 70 then c.toNat - 55
  else c.toNat - 87

def hexValFrom (a : Nat) : Str → Nat
  | [] => a
  | c :: rest => hexValFrom (16 * a + hexDigitVal c) rest

/-- Longest decimal-digit run at the head; `none` models NaN (no digits). -/
def parseDecRun (s : Str) : Option Nat :=
  let ds := s.takeWhile isDigit
  if ds.isEmpty then none else some (decValFrom 0 ds)

def parseHexRun (s : Str) : Option Nat :=
  let ds := s.takeWhile isHexDigit
  if ds.isEmpty then none else some (hexValFrom 0 ds)

/-- Unsigned part of `parseInt(s)` with no radix argument: a `0x`/`0X`
head selects hexadecimal, otherwise decimal; trailing junk is ignored. -/
def parseIntUnsigned (s : Str) : Option Nat :=
  match s with
  | c₀ :: c₁ :: rest =>
    if c₀ = '0' ∧ (c₁ = 'x' ∨ c₁ = 'X') then parseHexRun rest
    else parseDecRun (c₀ :: c₁ :: rest)
  | _ => parseDecRun s

/-- Sign handling of `parseInt` after leading whitespace is gone. -/
def parseIntSigned : Str → Option Int
  | [] => none
  | c :: rest =>
    if c = '-' then (parseIntUnsigned rest).map fun n => -(n : Int)
    else if c = '+' then (parseIntUnsigned rest).map fun n => (n : Int)
    else (parseIntUnsigned (c :: rest)).map fun n => (n : Int)

/-- Model of `parseInt(s)` (radix omitted).  `none` models NaN. -/
def parseIntJs (s : Str) : Option Int :=
  parseIntSigned (s.dropWhile jsWs)

/-- Decimal digits of `n`, most significant first; `fuel` bounds the
recursion (any `fuel ≥ n` gives the digits of `n`, and `n = 0` gives `[]`). -/
def natToDecAux : Nat → Nat → Str
  | 0, _ => []
  | _ + 1, 0 => []
  | fuel + 1, n + 1 =>
    natToDecAux fuel ((n + 1) / 10) ++ [Char.ofNat (48 + (n + 1) % 10)]

/-- Model of JavaScript number-to-string for a nonnegative integer. -/
def natToDec (n : Nat) : Str :=
  if n = 0 then ['0'] else natToDecAux n n

/-- Model of `${i}` for an integral JavaScript number. -/
def intToStr (i : Int) : Str :=
  if i < 0 then '-' :: natToDec i.natAbs else natToDec i.natAbs

/-- Model of `${x}` where `x` is the parsed index (a number or NaN);
`none` is the NaN case. -/
def numToStr : Option Int → Str
  | none => "NaN".data
  | some i => intToStr i

/-- Exact shape `\d{2}:\d{2}:\d{2},\d{3}` (12 characters).  This is both
the capture-group shape of `parseSrt`'s time-line regex and the anchored
`^\d{2}:\d{2}:\d{2},\d{3}$` test of `validateSrt`. -/
def timestamp12 (s : Str) : Bool :=
  match s with
  | [h₁, h₂, c₁, m₁, m₂, c₂, s₁, s₂, c₃, x₁, x₂, x₃] =>
    isDigit h₁ && isDigit h₂ && (c₁ = ':') && isDigit m₁ && isDigit m₂ &&
    (c₂ = ':') && isDigit s₁ && isDigit s₂ && (c₃ = ',') &&
    isDigit x₁ && isDigit x₂ && isDigit x₃
  | _ => false

def arrowStr : Str := " --> ".data

/-- The time-line pattern `(\d{2}:\d{2}:\d{2},\d{3}) --> (\d{2}:\d{2}:\d{2},\d{3})`
tried at one fixed position: 12 capture characters, the literal
`" --> "`, 12 more capture characters. -/
def tryTimeAt (s : Str) : Option (Str × Str) :=
  if timestamp12 (s.take 12) = true ∧ (s.drop 12).take 5 = arrowStr ∧
      timestamp12 ((s.drop 17).take 12) = true then
    some (s.take 12, (s.drop 17).take 12)
  else none

/-- Model of `timeLine.match(regex)`: the regex engine scans left to
right for the first position where the (fixed-width) pattern matches. -/
def findTimeMatch : Str → Option (Str × Str)
  | [] => none
  | c :: rest =>
    match tryTimeAt (c :: rest) with
    | some r => some r
    | none => findTimeMatch rest

/-- `SrtSubtitle` of `src/types/srt.ts`.  `index` is a JavaScript number
produced by `parseInt`; `none` models NaN. -/
structure SrtSubtitle where
  index : Option Int
  startTime : Str
  endTime : Str
  text : Str
deriving DecidableEq, Repr

/-- One iteration of `parseSrt`'s block loop: `continue` is `none`. -/
def parseBlock? (block : Str) : Option SrtSubtitle :=
  let lines := splitOnChar '\n' (jsTrim block)
  if lines.length < 3 then none
  else
    let index := parseIntJs (lines.headD [])
    let timeLine := (lines.drop 1).headD []
    let text := joinSep ['\n'] (lines.drop 2)
    match findTimeMatch timeLine with
    | none => none
    | some (st, en) => some ⟨index, st, en, text⟩

/-- `parseSrt` of `src/lib/srt-utils.ts`. -/
def parseSrt (srtContent : Str) : List SrtSubtitle :=
  (splitOnNN (jsTrim srtContent)).filterMap parseBlock?

/-- `generateSrt` of `src/lib/srt-utils.ts`:
`` `${index}\n${startTime} --> ${endTime}\n${text}\n` `` joined with `'\n'`. -/
def generateSrt (subtitles : List SrtSubtitle) : Str :=
  joinSep ['\n'] (subtitles.map fun s =>
    numToStr s.index ++ '\n' :: (s.startTime ++ arrowStr ++ s.endTime) ++
      '\n' :: (s.text ++ ['\n']))

/-- `timeToSeconds` of `src/lib/srt-utils.ts`, scaled by 1000 to stay in
`Nat`.  The source splits on `','` then `':'` and computes
`h*3600 + m*60 + s + ms/1000` in floating point; `validateSrt` only
applies it to `parseSrt` output, whose timestamps always have the exact
12-character shape (theorem `parseSrt_times_shape`), where the float
comparisons agree with exact integer comparison of the value scaled by
1000.  The `0` fallbacks are the unreachable destructuring failures. -/
def timeToSecondsMs (t : Str) : Nat :=
  match splitOnChar ',' t with
  | time :: ms :: _ =>
    (match splitOnChar ':' time with
     | h :: m :: s :: _ =>
       decValFrom 0 h * 3600000 + decValFrom 0 m * 60000 + decValFrom 0 s * 1000
     | _ => 0) + decValFrom 0 ms
  | _ => 0

def noSubsMsg : Str := "SRTファイルに有効な字幕が見つかりません".data

def idxErrMsg (n : Nat) : Str :=
  "字幕 ".data ++ natToDec n ++ " のインデックスが正しくありません".data

def startFmtMsg (idx : Option Int) : Str :=
  "字幕 ".data ++ numToStr idx ++ " の開始時間の形式が正しくありません".data

def endFmtMsg (idx : Option Int) : Str :=
  "字幕 ".data ++ numToStr idx ++ " の終了時間の形式が正しくありません".data

def orderMsg (idx : Option Int) : Str :=
  "字幕 ".data ++ numToStr idx ++ " の開始時間が終了時間以降になっています".data

def overlapMsg (idx : Option Int) : Str :=
  "字幕 ".data ++ numToStr idx ++ " が前の字幕と重複しています".data

/-- The index-sequence loop of `validateSrt` (`k` is the 0-based loop
counter; a record whose `index` is not `k+1` — including NaN — appends
one error). -/
def idxErrors (k : Nat) : List SrtSubtitle → List Str
  | [] => []
  | s :: rest =>
    (if s.index = some (Int.ofNat (k + 1)) then [] else [idxErrMsg (k + 1)]) ++
    idxErrors (k + 1) rest

/-- The timestamp-format loop of `validateSrt`: one error per field that
fails the anchored `^\d{2}:\d{2}:\d{2},\d{3}$` test. -/
def tsFormatErrors : List SrtSubtitle → List Str
  | [] => []
  | s :: rest =>
    (if timestamp12 s.startTime then [] else [startFmtMsg s.index]) ++
    (if timestamp12 s.endTime then [] else [endFmtMsg s.index]) ++
    tsFormatErrors rest

/-- The time-logic loop of `validateSrt`, carrying the previous record
(`i > 0` in the source is exactly `prev = some _`). -/
def timeLogicErrorsAux (prev : Option SrtSubtitle) : List SrtSubtitle → List Str
  | [] => []
  | cur :: rest =>
    (if timeToSecondsMs cur.endTime ≤ timeToSecondsMs cur.startTime then
       [orderMsg cur.index] else []) ++
    (match prev with
     | some p =>
       if timeToSecondsMs cur.startTime < timeToSecondsMs p.endTime then
         [overlapMsg cur.index] else []
     | none => []) ++
    timeLogicErrorsAux (some cur) rest

structure SrtValidation where
  isValid : Bool
  errors : List Str
deriving DecidableEq, Repr

/-- `validateSrt` of `src/lib/srt-utils.ts`: parse, then accumulate the
three loops' errors in source order; `isValid` iff the list is empty. -/
def validateSrt (srtContent : Str) : SrtValidation :=
  let subtitles := parseSrt srtContent
  if subtitles.isEmpty then ⟨false, [noSubsMsg]⟩
  else
    let errs := idxErrors 0 subtitles ++ tsFormatErrors subtitles ++
      timeLogicErrorsAux none subtitles
    ⟨errs.isEmpty, errs⟩

example : parseSrt "1\n00:00:00,000 --> 00:00:03,000\nHello world\n\n2\n00:00:03,000 --> 00:00:06,000\nThis is a test".data =
    [⟨some 1, "00:00:00,000".data, "00:00:03,000".data, "Hello world".data⟩,
     ⟨some 2, "00:00:03,000".data, "00:00:06,000".data, "This is a test".data⟩] := by
  decide

example : validateSrt "1\n00:00:00,000 --> 00:00:03,000\nHello world\n\n2\n00:00:03,000 --> 00:00:06,000\nThis is a test".data =
    ⟨true, []⟩ := by
  decide

example :
    generateSrt [⟨some 1, "00:00:00,000".data, "00:00:03,000".data, "Hello".data⟩] =
      "1\n00:00:00,000 --> 00:00:03,000\nHello\n".data := by
  decide

/-! ## Stage state and the stage merger -/

inductive StageStatus
  | pending
  | processing
  | completed
  | error
deriving DecidableEq, Repr

/-- A JavaScript object of the `ProcessingStage` shape
(`src/types/srt.ts`).  Every field is optional here because the merge
and the pipeline handle plain objects whose keys may be absent; `none`
models an absent key (the source never stores a key explicitly set to
`undefined` on these objects). -/
structure StageData where
  name : Option Str
  status : Option StageStatus
  description : Option Str
  result : Option Str
  error : Option Str
deriving DecidableEq, Repr

/-- The type of `AudioFile.stages`: all four keys optional. -/
structure StageMap where
  initialTranscription : Option StageData
  topicAnalysis : Option StageData
  dictionaryCreation : Option StageData
  finalTranscription : Option StageData
deriving DecidableEq, Repr

def emptyStageMap : StageMap := ⟨none, none, none, none⟩

/-- A complete stage map, the result type of the merge. -/
structure MergedStages where
  initialTranscription : StageData
  topicAnalysis : StageData
  dictionaryCreation : StageData
  finalTranscription : StageData
deriving DecidableEq, Repr

/-- First-defined choice: the field of `{...d, ...a}` is `a`'s when the
key is present on `a`, else `d`'s. -/
def ofirst : Option α → Option α → Option α
  | some x, _ => some x
  | none, b => b

/-- Object spread `{...d, ...a}` on two `ProcessingStage`-shaped objects. -/
def mergeStage (d a : StageData) : StageData :=
  ⟨ofirst a.name d.name, ofirst a.status d.status,
   ofirst a.description d.description, ofirst a.result d.result,
   ofirst a.error d.error⟩

def initName : Str := "基本文字起こし (Gemini 2.0 Flash)".data
def topicName : Str := "トピック分析 (Gemini 2.0 Flash)".data
def dictName : Str := "辞書作成 (Google検索+Gemini 2.0 Flash)".data
def finalName : Str := "最終字幕生成 (Gemini 2.5 Pro)".data

def initDesc : Str := "音声ファイルから基本的な文字起こしを行います".data
def topicDesc : Str := "文字起こし結果からトピックと主要テーマを分析します".data
def dictDesc : Str := "トピックに関連する専門用語辞書をGoogle検索で作成します".data
def finalDesc : Str := "辞書を使用して高精度なSRT字幕を生成します".data

def defaultInitial : StageData := ⟨some initName, some .pending, some initDesc, none, none⟩
def defaultTopic : StageData := ⟨some topicName, some .pending, some topicDesc, none, none⟩
def defaultDict : StageData := ⟨some dictName, some .pending, some dictDesc, none, none⟩
def defaultFinal : StageData := ⟨some finalName, some .pending, some finalDesc, none, none⟩

def defaultMergedStages : MergedStages :=
  ⟨defaultInitial, defaultTopic, defaultDict, defaultFinal⟩

/-- `mergeStagesWithDefaults` of `src/utils/stage-merger.test.ts` (the
same logic as the stage-merge IIFE in `SrtFileCard`): per default key,
spread the actual entry over the default when present (objects are
always truthy), else keep the default; with no argument, the defaults. -/
def mergeStagesWithDefaults : Option StageMap → MergedStages
  | none => defaultMergedStages
  | some a =>
    ⟨(match a.initialTranscription with
      | some st => mergeStage defaultInitial st
      | none => defaultInitial),
     (match a.topicAnalysis with
      | some st => mergeStage defaultTopic st
      | none => defaultTopic),
     (match a.dictionaryCreation with
      | some st => mergeStage defaultDict st
      | none => defaultDict),
     (match a.finalTranscription with
      | some st => mergeStage defaultFinal st
      | none => defaultFinal)⟩

inductive StageKey
  | initialTranscription
  | topicAnalysis
  | dictionaryCreation
  | finalTranscription
deriving DecidableEq, Repr

def getMerged (m : MergedStages) : StageKey → StageData
  | .initialTranscription => m.initialTranscription
  | .topicAnalysis => m.topicAnalysis
  | .dictionaryCreation => m.dictionaryCreation
  | .finalTranscription => m.finalTranscription

def getStageEntry (a : StageMap) : StageKey → Option StageData
  | .initialTranscription => a.initialTranscription
  | .topicAnalysis => a.topicAnalysis
  | .dictionaryCreation => a.dictionaryCreation
  | .finalTranscription => a.finalTranscription

/-- `Object.entries` of a merged map, in the fixed key order
`Object.fromEntries` produces. -/
def mergedEntries (m : MergedStages) : List (StageKey × StageData) :=
  [(.initialTranscription, m.initialTranscription),
   (.topicAnalysis, m.topicAnalysis),
   (.dictionaryCreation, m.dictionaryCreation),
   (.finalTranscription, m.finalTranscription)]

/-- View a complete map as an actual-stages argument (every key present). -/
def toStageMap (m : MergedStages) : StageMap :=
  ⟨some m.initialTranscription, some m.topicAnalysis,
   some m.dictionaryCreation, some m.finalTranscription⟩

/-! ## The job pipeline (`SrtFileCard.tsx`) -/

inductive JobStatus
  | idle
  | processing
  | completed
  | error
deriving DecidableEq, Repr

/-- `SrtSettings` of `src/types/srt.ts` (the fields the pipeline reads). -/
structure SrtSettings where
  maxCharsPerSubtitle : Nat
  enableSpeakerDetection : Bool
  removeFillerWords : Bool
  enableAdvancedProcessing : Bool
  customDictionaryPath : Option Str
deriving DecidableEq, Repr

/-- `AudioFile` of `src/types/srt.ts`, restricted to the fields the
orchestration reads or writes. -/
structure Job where
  settings : SrtSettings
  status : JobStatus
  result : Option Str
  subtitles : Option (List SrtSubtitle)
  error : Option Str
  progress : Option Str
  srtValidation : Option SrtValidation
  stages : Option StageMap
  dictionary : Option Str
  analyzedTopic : Option Str
deriving DecidableEq, Repr

deriving instance DecidableEq for Except

/-- The two awaited external calls of the basic path, each independently
failable; the `Str` of `.error` is the caught error's string form. -/
structure BasicCalls where
  saveTemp : Except Str Str
  transcribe : Except Str Str
deriving DecidableEq, Repr

def basicErrPrefix : Str := "エラーが発生しました: ".data
def advErrPrefix : Str := "高度処理でエラーが発生しました: ".data

def bp1 : Str := "ステップ 1/5: ファイルを一時保存中... (数秒)".data
def bp2 : Str := "ステップ 2/5: プロンプトを準備中...".data
def bp3 : Str := "ステップ 3/5: Gemini APIに音声ファイルを送信中...".data
def bp4 : Str := "ステップ 4/5: AI音声解析・SRT字幕生成中... (1-3分)".data
def bp5 : Str := "ステップ 5/5: SRT形式の検証と最終化中...".data

/-- The catch block of `startBasicTranscription`: an update setting
exactly `status`, `error` and `progress` (to `undefined`). -/
def basicCatch (e : Str) (j : Job) : Job :=
  { j with status := .error, error := some (basicErrPrefix ++ e), progress := none }

/-- `startBasicTranscription` of `SrtFileCard.tsx` as a function from
the job (the `audioFile` prop captured when the run starts) and the two
call outcomes to the final job state.  Each `onUpdate` is a shallow
merge of the listed fields into the current job (`{...file, ...updates}`
in the parent); a rejected await jumps to the catch block. -/
def startBasicTranscription (file : Job) (calls : BasicCalls) : Job :=
  let j := { file with status := JobStatus.processing, error := none, progress := some bp1 }
  match calls.saveTemp with
  | .error e => basicCatch e j
  | .ok _ =>
    let j := { j with progress := some bp2 }
    let j := { j with progress := some bp3 }
    let j := { j with progress := some bp4 }
    match calls.transcribe with
    | .error e => basicCatch e j
    | .ok result =>
      let j := { j with progress := some bp5 }
      let subtitles := parseSrt result
      let validation := validateSrt result
      { j with status := .completed, result := some result,
               subtitles := if validation.isValid then some subtitles else none,
               progress := none, srtValidation := some validation }

/-- Model of `line.includes(needle)`. -/
def containsSub (needle : Str) : Str → Bool
  | [] => needle.isEmpty
  | c :: rest => needle.isPrefixOf (c :: rest) || containsSub needle rest

/-- Model of `line.replace(needle, '')` for a plain-string pattern:
remove the first occurrence only. -/
def removeFirst (needle : Str) : Str → Str
  | [] => []
  | c :: rest =>
    if needle.isPrefixOf (c :: rest) then (c :: rest).drop needle.length
    else c :: removeFirst needle rest

def mainTopicMarker : Str := "メイントピック:".data

/-- The main-topic extraction of the dictionary step: first line
containing the marker, marker removed and trimmed; else `'この会話'`. -/
def extractMainTopic (topicResult : Str) : Str :=
  match (splitOnChar '\n' topicResult).find? (fun line => containsSub mainTopicMarker line) with
  | some line => jsTrim (removeFirst mainTopicMarker line)
  | none => "この会話".data

/-- The awaited external calls of the advanced path in program order,
each independently failable.  `loadDict` is consulted only when
`customDictionaryPath` is set; otherwise `createDict` then `saveDict`. -/
structure AdvCalls where
  saveTemp : Except Str Str
  transcribe : Except Str Str
  analyzeTopic : Except Str Str
  loadDict : Except Str Str
  createDict : Except Str Str
  saveDict : Except Str Str
  enhance : Except Str Str
deriving DecidableEq, Repr

def ap1 : Str := "ステップ 1/6: ファイルを一時保存中...".data
def ap2 : Str := "ステップ 2/6: 基本文字起こし中... (Gemini 2.0 Flash)".data
def ap3 : Str := "ステップ 3/6: 会話トピック分析中... (Gemini 2.0 Flash)".data

def ap4 (mainTopic : Str) : Str :=
  "ステップ 4/6: ".data ++ mainTopic ++ "に関する用語集を生成中... (Google検索+Gemini 2.0 Flash)".data

def ap5 : Str := "ステップ 5/6: 高精度SRT字幕生成中... (Gemini 2.5 Pro)".data
def ap6 : Str := "ステップ 6/6: SRT形式の検証中...".data

def dictProcName (mainTopic : Str) : Str :=
  "用語集作成: ".data ++ mainTopic ++ " (Google検索+Gemini 2.0 Flash)".data

def dictDoneName (mainTopic : Str) : Str :=
  "用語集作成: ".data ++ mainTopic ++ " (Google検索+Gemini 2.0 Flash) - CSV保存済み".data

/-- A stage object literal `{ name, status }`. -/
def stageNS (n : Str) (st : StageStatus) : StageData :=
  ⟨some n, some st, none, none, none⟩

/-- A stage object literal `{ name, status, result }`. -/
def stageNSR (n : Str) (st : StageStatus) (r : Str) : StageData :=
  ⟨some n, some st, none, some r, none⟩

/-- The literal `stages:` object of the first advanced update: all four
keys pending, names only. -/
def advPendingStages : StageMap :=
  ⟨some (stageNS initName .pending), some (stageNS topicName .pending),
   some (stageNS dictName .pending), some (stageNS finalName .pending)⟩

/-- Spread `{...audioFile.stages, initialTranscription: v}` (spreading
`undefined` contributes nothing). -/
def withInit (base : Option StageMap) (v : StageData) : StageMap :=
  { base.getD emptyStageMap with initialTranscription := some v }

def withTopic (base : Option StageMap) (v : StageData) : StageMap :=
  { base.getD emptyStageMap with topicAnalysis := some v }

def withDict (base : Option StageMap) (v : StageData) : StageMap :=
  { base.getD emptyStageMap with dictionaryCreation := some v }

def withFinal (base : Option StageMap) (v : StageData) : StageMap :=
  { base.getD emptyStageMap with finalTranscription := some v }

/-- The catch block of `startAdvancedTranscription`: sets exactly
`status`, `error` and `progress`; it does not touch `stages`. -/
def advCatch (e : Str) (j : Job) : Job :=
  { j with status := .error, error := some (advErrPrefix ++ e), progress := none }

/-- `startAdvancedTranscription` of `SrtFileCard.tsx` as a function from
the job and the call outcomes to the final job state.

`file` is the `audioFile` prop captured by the handler's closure when
the run starts; React props are immutable per render, so every
`...audioFile.stages` spread inside the async function reads
`file.stages` — the stages from *before* the run — not the value
written by the preceding `onUpdate` (the parent re-renders, but this
closure keeps the old prop).  Each `onUpdate` shallow-merges the listed
fields into the current job; a rejected await jumps to the catch block. -/
def startAdvancedTranscription (file : Job) (calls : AdvCalls) : Job :=
  let stale := file.stages
  let j := { file with status := JobStatus.processing, error := none,
                       progress := some ap1, stages := some advPendingStages }
  match calls.saveTemp with
  | .error e => advCatch e j
  | .ok _ =>
  let j := { j with progress := some ap2,
                    stages := some (withInit stale (stageNS initName .processing)) }
  match calls.transcribe with
  | .error e => advCatch e j
  | .ok initialResult =>
  let j := { j with stages := some (withInit stale (stageNSR initName .completed initialResult)) }
  let j := { j with progress := some ap3,
                    stages := some (withTopic stale (stageNS topicName .processing)) }
  match calls.analyzeTopic with
  | .error e => advCatch e j
  | .ok topicResult =>
  let j := { j with analyzedTopic := some topicResult,
                    stages := some (withTopic stale (stageNSR topicName .completed topicResult)) }
  let mainTopic := extractMainTopic topicResult
  let j := { j with progress := some (ap4 mainTopic),
                    stages := some (withDict stale (stageNS (dictProcName mainTopic) .processing)) }
  match (match file.settings.customDictionaryPath with
         | some _ => calls.loadDict
         | none => calls.createDict.bind fun d => calls.saveDict.map fun _ => d) with
  | .error e => advCatch e j
  | .ok dictionary =>
  let j := { j with dictionary := some dictionary,
                    stages := some (withDict stale (stageNSR (dictDoneName mainTopic) .completed dictionary)) }
  let j := { j with progress := some ap5,
                    stages := some (withFinal stale (stageNS finalName .processing)) }
  match calls.enhance with
  | .error e => advCatch e j
  | .ok finalResult =>
  let j := { j with progress := some ap6 }
  let subtitles := parseSrt finalResult
  let validation := validateSrt finalResult
  { j with status := .completed, result := some finalResult,
           subtitles := if validation.isValid then some subtitles else none,
           progress := none, srtValidation := some validation,
           stages := some (withFinal stale (stageNSR finalName .completed finalResult)) }

/-- Status of a stage key as recorded on the job (`none` when `stages`
itself or the key is absent). -/
def jobStageStatus (j : Job) (k : StageKey) : Option (Option StageStatus) :=
  (j.stages.bind fun m => getStageEntry m k).map (·.status)

/-! ## Supporting lemmas: characters and trimming -/

theorem isDigit_iff {c : Char} : isDigit c = true ↔ 48 ≤ c.toNat ∧ c.toNat ≤ 57 := by
  simp [isDigit]

theorem jsWs_false_of_isDigit {c : Char} (h : isDigit c = true) : jsWs c = false := by
  rw [isDigit_iff] at h
  simp only [jsWs]
  simp only [Bool.or_eq_false_iff, decide_eq_false_iff_not, Bool.and_eq_false_iff,
    Bool.not_eq_true]
  omega

theorem ne_of_isDigit {c d : Char} (h : isDigit c = true) (hd : isDigit d = false) :
    c ≠ d := by
  intro he
  subst he
  rw [h] at hd
  cases hd

theorem dropWhile_jsWs_eq_self {l : Str} {c : Char} (h : l.head? = some c)
    (hc : jsWs c = false) : l.dropWhile jsWs = l := by
  cases l with
  | nil => cases h
  | cons x t =>
    simp only [List.head?_cons, Option.some.injEq] at h
    subst h
    simp [List.dropWhile_cons, hc]

theorem jsTrim_eq_self {l : Str} {c d : Char} (h : l.head? = some c)
    (hc : jsWs c = false) (h' : l.getLast? = some d) (hd : jsWs d = false) :
    jsTrim l = l := by
  unfold jsTrim
  rw [dropWhile_jsWs_eq_self h hc]
  rw [dropWhile_jsWs_eq_self (by rw [List.head?_reverse]; exact h') hd]
  exact List.reverse_reverse l

theorem jsTrim_append_nl {l : Str} {c d : Char} (h : l.head? = some c)
    (hc : jsWs c = false) (h' : l.getLast? = some d) (hd : jsWs d = false) :
    jsTrim (l ++ ['\n']) = l := by
  unfold jsTrim
  have h1 : (l ++ ['\n']).dropWhile jsWs = l ++ ['\n'] := by
    refine dropWhile_jsWs_eq_self ?_ hc
    rw [List.head?_append, h]
    rfl
  rw [h1, List.reverse_append]
  have h2 : (['\n'].reverse ++ l.reverse).dropWhile jsWs = l.reverse := by
    have : ['\n'].reverse ++ l.reverse = '\n' :: l.reverse := rfl
    rw [this, List.dropWhile_cons]
    have : jsWs '\n' = true := by decide
    rw [this]
    simp only [if_true]
    exact dropWhile_jsWs_eq_self (by rw [List.head?_reverse]; exact h') hd
  rw [h2, List.reverse_reverse]

/-! ## Supporting lemmas: splitting and joining -/

theorem splitOnChar_ne_nil (sep : Char) (s : Str) : splitOnChar sep s ≠ [] := by
  induction s with
  | nil => simp [splitOnChar]
  | cons c rest ih =>
    rw [splitOnChar]
    split
    · simp
    · cases h : splitOnChar sep rest with
      | nil => exact absurd h ih
      | cons r rs => simp [consHead]

theorem splitOnChar_no_sep {sep : Char} {s : Str} (h : ∀ c ∈ s, c ≠ sep) :
    splitOnChar sep s = [s] := by
  induction s with
  | nil => rfl
  | cons c rest ih =>
    rw [splitOnChar, if_neg (h c (by simp))]
    rw [ih fun x hx => h x (by simp [hx])]
    rfl

theorem splitOnChar_append {sep : Char} {x y : Str} (h : ∀ c ∈ x, c ≠ sep) :
    splitOnChar sep (x ++ sep :: y) = x :: splitOnChar sep y := by
  induction x with
  | nil => simp [splitOnChar]
  | cons c rest ih =>
    have hc : c ≠ sep := h c (by simp)
    rw [List.cons_append, splitOnChar, if_neg hc,
      ih fun a ha => h a (by simp [ha])]
    rfl

theorem joinSep_splitOnChar (sep : Char) (t : Str) :
    joinSep [sep] (splitOnChar sep t) = t := by
  induction t with
  | nil => rfl
  | cons c rest ih =>
    rw [splitOnChar]
    split
    · rename_i hc
      subst hc
      cases h : splitOnChar c rest with
      | nil => exact absurd h (splitOnChar_ne_nil c rest)
      | cons r rs =>
        rw [h] at ih
        rw [joinSep, List.nil_append, List.singleton_append, ih]
    · cases h : splitOnChar sep rest with
      | nil => exact absurd h (splitOnChar_ne_nil sep rest)
      | cons r rs =>
        rw [h] at ih
        cases rs with
        | nil =>
          simp only [consHead, joinSep] at ih ⊢
          rw [ih]
        | cons r' rs' =>
          simp only [consHead, joinSep, List.cons_append, List.append_assoc] at ih ⊢
          rw [ih]

/-- No two adjacent newlines (no occurrence of the block separator). -/
def noNN : Str → Bool
  | [] => true
  | c :: rest => if c = '\n' ∧ rest.head? = some '\n' then false else noNN rest

theorem noNN_tail {c : Char} {rest : Str} (h : noNN (c :: rest) = true) :
    noNN rest = true := by
  rw [noNN] at h
  split at h
  · cases h
  · exact h

theorem noNN_of_no_nl {a : Str} (h : ∀ c ∈ a, c ≠ '\n') : noNN a = true := by
  induction a with
  | nil => rfl
  | cons c rest ih =>
    rw [noNN, if_neg]
    · exact ih fun x hx => h x (by simp [hx])
    · intro hc
      exact h c (by simp) hc.1

theorem noNN_append_sep {a b : Str} (ha : ∀ c ∈ a, c ≠ '\n')
    (hb : b.head? ≠ some '\n') (hb' : noNN b = true) :
    noNN (a ++ '\n' :: b) = true := by
  induction a with
  | nil =>
    rw [List.nil_append, noNN, if_neg]
    · exact hb'
    · intro hc
      exact hb hc.2
  | cons c rest ih =>
    rw [List.cons_append, noNN, if_neg]
    · exact ih fun x hx => ha x (by simp [hx])
    · intro hc
      exact ha c (by simp) hc.1

theorem splitOnNN_no_sep : ∀ (b : Str), noNN b = true → splitOnNN b = [b]
  | [], _ => rfl
  | [_], _ => rfl
  | c₁ :: c₂ :: rest, h => by
    have hne : ¬(c₁ = '\n' ∧ c₂ = '\n') := by
      intro hc
      rw [noNN, if_pos ⟨hc.1, by rw [hc.2]; rfl⟩] at h
      cases h
    rw [splitOnNN, if_neg hne,
      splitOnNN_no_sep (c₂ :: rest) (noNN_tail h)]
    rfl

theorem splitOnNN_cut : ∀ (b y : Str), noNN b = true → b.getLast? ≠ some '\n' →
    splitOnNN (b ++ '\n' :: '\n' :: y) = b :: splitOnNN y
  | [], y, _, _ => by
    rw [List.nil_append, splitOnNN, if_pos ⟨rfl, rfl⟩]
  | [c], y, _, hl => by
    have hc : c ≠ '\n' := by
      intro hc
      exact hl (by rw [hc]; rfl)
    rw [List.singleton_append, splitOnNN, if_neg (fun hx => hc hx.1),
      splitOnNN, if_pos ⟨rfl, rfl⟩]
    rfl
  | c₁ :: c₂ :: b', y, h, hl => by
    have hne : ¬(c₁ = '\n' ∧ c₂ = '\n') := by
      intro hc
      rw [noNN, if_pos ⟨hc.1, by rw [hc.2]; rfl⟩] at h
      cases h
    have hl' : (c₂ :: b').getLast? ≠ some '\n' := by
      rwa [List.getLast?_cons_cons] at hl
    rw [List.cons_append, List.cons_append, splitOnNN, if_neg hne]
    have he : c₂ :: (b' ++ '\n' :: '\n' :: y) = (c₂ :: b') ++ '\n' :: '\n' :: y := rfl
    rw [he, splitOnNN_cut (c₂ :: b') y (noNN_tail h) hl']
    rfl

theorem splitOnNN_join : ∀ (cs : List Str), cs ≠ [] →
    (∀ b ∈ cs, noNN b = true ∧ b.getLast? ≠ some '\n') →
    splitOnNN (joinSep ['\n', '\n'] cs) = cs
  | [], h, _ => absurd rfl h
  | [b], _, hall => by
    rw [joinSep, splitOnNN_no_sep b (hall b (by simp)).1]
  | b :: b' :: rest, _, hall => by
    rw [joinSep]
    rw [show b ++ ['\n', '\n'] ++ joinSep ['\n', '\n'] (b' :: rest) =
      b ++ '\n' :: '\n' :: joinSep ['\n', '\n'] (b' :: rest) by simp]
    rw [splitOnNN_cut b _ (hall b (by simp)).1 (hall b (by simp)).2,
      splitOnNN_join (b' :: rest) (by simp) fun x hx => hall x (by simp [hx])]

theorem joinSep_ne_nil (sep : Str) (x : Str) (xs : List Str) (hx : x ≠ []) :
    joinSep sep (x :: xs) ≠ [] := by
  cases xs with
  | nil => simpa [joinSep] using hx
  | cons y rest => simp [joinSep, hx]

theorem joinSep_head? (sep : Str) (x : Str) (xs : List Str) (hx : x ≠ []) :
    (joinSep sep (x :: xs)).head? = x.head? := by
  cases xs with
  | nil => rfl
  | cons y rest =>
    rw [joinSep, List.head?_append, List.head?_append]
    cases x with
    | nil => exact absurd rfl hx
    | cons c t => rfl

theorem joinSep_getLast? (sep : Str) : ∀ (x : Str) (xs : List Str),
    (∀ b ∈ x :: xs, b ≠ ([] : Str)) →
    ∃ y, (x :: xs).getLast? = some y ∧ (joinSep sep (x :: xs)).getLast? = y.getLast?
  | x, [], _ => ⟨x, rfl, rfl⟩
  | x, y :: rest, h => by
    obtain ⟨z, hz, hz'⟩ := joinSep_getLast? sep y rest fun b hb => h b (by simp [hb])
    refine ⟨z, ?_, ?_⟩
    · rwa [List.getLast?_cons_cons]
    · rw [joinSep, List.getLast?_append_of_ne_nil _
        (joinSep_ne_nil sep y rest (h y (by simp)))]
      exact hz'

theorem joinSep_map_nl : ∀ (cs : List Str), cs ≠ [] →
    joinSep ['\n'] (cs.map (· ++ ['\n'])) =
      joinSep ['\n', '\n'] cs ++ ['\n']
  | [], h => absurd rfl h
  | [x], _ => by simp [joinSep]
  | x :: y :: rest, _ => by
    have h1 : joinSep ['\n'] ((x :: y :: rest).map (· ++ ['\n'])) =
        (x ++ ['\n']) ++ ['\n'] ++ joinSep ['\n'] ((y :: rest).map (· ++ ['\n'])) := rfl
    rw [h1, joinSep_map_nl (y :: rest) (by simp), joinSep]
    simp

/-! ## Supporting lemmas: decimal stringification and parseInt -/

theorem decValFrom_nil (a : Nat) : decValFrom a [] = a := rfl

theorem decValFrom_cons (a : Nat) (c : Char) (l : Str) :
    decValFrom a (c :: l) = decValFrom (10 * a + digitVal c) l := rfl

theorem decValFrom_append (a : Nat) (xs ys : Str) :
    decValFrom a (xs ++ ys) = decValFrom (decValFrom a xs) ys := by
  induction xs generalizing a with
  | nil => rfl
  | cons c rest ih => exact ih (10 * a + digitVal c)

theorem isDigit_digitChar (d : Nat) (h : d < 10) :
    isDigit (Char.ofNat (48 + d)) = true := by
  interval_cases d <;> decide

theorem digitVal_digitChar (d : Nat) (h : d < 10) :
    digitVal (Char.ofNat (48 + d)) = d := by
  interval_cases d <;> decide

theorem natToDecAux_digits : ∀ (fuel n : Nat), ∀ c ∈ natToDecAux fuel n, isDigit c = true := by
  intro fuel
  induction fuel with
  | zero => intro n c hc; simp [natToDecAux] at hc
  | succ fuel ih =>
    intro n c hc
    cases n with
    | zero => simp [natToDecAux] at hc
    | succ m =>
      rw [natToDecAux, List.mem_append] at hc
      rcases hc with hc | hc
      · exact ih _ c hc
      · simp only [List.mem_singleton] at hc
        subst hc
        exact isDigit_digitChar _ (Nat.mod_lt _ (by omega))

theorem natToDecAux_val : ∀ (fuel n a : Nat), n ≤ fuel →
    decValFrom a (natToDecAux fuel n) =
      a * 10 ^ (natToDecAux fuel n).length + n := by
  intro fuel
  induction fuel with
  | zero =>
    intro n a hn
    have h0 : n = 0 := by omega
    subst h0
    rw [show natToDecAux 0 0 = [] from rfl, decValFrom_nil]
    simp
  | succ fuel ih =>
    intro n a hn
    cases n with
    | zero =>
      rw [show natToDecAux (fuel + 1) 0 = [] from rfl, decValFrom_nil]
      simp
    | succ m =>
      have hdiv : (m + 1) / 10 ≤ fuel := by
        have h1 : (m + 1) / 10 < m + 1 := Nat.div_lt_self (by omega) (by omega)
        omega
      rw [natToDecAux, decValFrom_append, ih _ a hdiv, List.length_append,
        decValFrom_cons, decValFrom_nil,
        digitVal_digitChar _ (Nat.mod_lt _ (by omega)), List.length_singleton, pow_succ]
      have hm := Nat.div_add_mod (m + 1) 10
      have hpow : a * (10 ^ (natToDecAux fuel ((m + 1) / 10)).length * 10) =
          10 * (a * 10 ^ (natToDecAux fuel ((m + 1) / 10)).length) := by ring
      omega

theorem natToDecAux_ne_nil (fuel n : Nat) (h1 : 1 ≤ n) (h2 : n ≤ fuel) :
    natToDecAux fuel n ≠ [] := by
  cases fuel with
  | zero => omega
  | succ fuel =>
    cases n with
    | zero => omega
    | succ m => rw [natToDecAux]; simp

theorem natToDec_digits (n : Nat) : ∀ c ∈ natToDec n, isDigit c = true := by
  intro c hc
  rw [natToDec] at hc
  split at hc
  · simp only [List.mem_singleton] at hc
    subst hc
    decide
  · exact natToDecAux_digits n n c hc

theorem natToDec_ne_nil (n : Nat) : natToDec n ≠ [] := by
  rw [natToDec]
  split
  · simp
  · exact natToDecAux_ne_nil n n (by omega) le_rfl

theorem decValFrom_natToDec (n : Nat) : decValFrom 0 (natToDec n) = n := by
  rw [natToDec]
  split
  · rename_i h
    subst h
    decide
  · rw [natToDecAux_val n n 0 le_rfl]
    simp

theorem parseIntJs_natToDec (n : Nat) : parseIntJs (natToDec n) = some (Int.ofNat n) := by
  have hdig := natToDec_digits n
  obtain ⟨c, rest, hs⟩ : ∃ c rest, natToDec n = c :: rest := by
    cases h : natToDec n with
    | nil => exact absurd h (natToDec_ne_nil n)
    | cons c rest => exact ⟨c, rest, rfl⟩
  have hc : isDigit c = true := hdig c (by rw [hs]; simp)
  have hdrop : (natToDec n).dropWhile jsWs = natToDec n :=
    dropWhile_jsWs_eq_self (by rw [hs]; rfl) (jsWs_false_of_isDigit hc)
  have huns : parseIntUnsigned (natToDec n) = some n := by
    have htake : (natToDec n).takeWhile isDigit = natToDec n :=
      List.takeWhile_eq_self_iff.mpr hdig
    have hdec : parseDecRun (natToDec n) = some n := by
      rw [parseDecRun, htake]
      rw [show ((natToDec n).isEmpty = false) from by
        cases h : natToDec n with
        | nil => exact absurd h (natToDec_ne_nil n)
        | cons c rest => rfl]
      simp [decValFrom_natToDec n]
    rw [hs] at hdec ⊢
    cases rest with
    | nil => exact hdec
    | cons c₁ rest' =>
      rw [parseIntUnsigned, if_neg, hdec]
      intro hx
      have hc₁ : isDigit c₁ = true := hdig c₁ (by rw [hs]; simp)
      rcases hx.2 with h' | h'
      · exact ne_of_isDigit hc₁ (by decide) h'
      · exact ne_of_isDigit hc₁ (by decide) h'
  rw [parseIntJs, hdrop, hs, parseIntSigned]
  rw [if_neg (ne_of_isDigit hc (by decide)), if_neg (ne_of_isDigit hc (by decide))]
  rw [← hs, huns]
  rfl

/-! ## Supporting lemmas: timestamps and the time-line match -/

theorem timestamp12_length {t : Str} (h : timestamp12 t = true) : t.length = 12 := by
  unfold timestamp12 at h
  split at h
  · rfl
  · cases h

theorem timestamp12_chars {t : Str} (h : timestamp12 t = true) :
    ∀ c ∈ t, isDigit c = true ∨ c = ':' ∨ c = ',' := by
  unfold timestamp12 at h
  split at h
  · simp only [Bool.and_eq_true, decide_eq_true_eq] at h
    intro c hc
    simp only [List.mem_cons, List.not_mem_nil, or_false] at hc
    rcases hc with rfl | rfl | rfl | rfl | rfl | rfl | rfl | rfl | rfl | rfl | rfl | rfl <;>
      tauto
  · cases h

theorem timestamp12_no_nl {t : Str} (h : timestamp12 t = true) :
    ∀ c ∈ t, c ≠ '\n' := by
  intro c hc heq
  subst heq
  rcases timestamp12_chars h '\n' hc with h' | h' | h' <;> exact absurd h' (by decide)

theorem tryTimeAt_some {s : Str} {a b : Str} (h : tryTimeAt s = some (a, b)) :
    timestamp12 a = true ∧ timestamp12 b = true := by
  unfold tryTimeAt at h
  split at h
  · rename_i hcond
    injection h with h'
    injection h' with ha hb
    subst ha
    subst hb
    exact ⟨hcond.1, hcond.2.2⟩
  · cases h

theorem findTimeMatch_some : ∀ {s a b : Str}, findTimeMatch s = some (a, b) →
    timestamp12 a = true ∧ timestamp12 b = true := by
  intro s
  induction s with
  | nil => intro a b h; cases h
  | cons c rest ih =>
    intro a b h
    rw [findTimeMatch] at h
    cases heq : tryTimeAt (c :: rest) with
    | some r =>
      rw [heq] at h
      injection h with h'
      subst h'
      exact tryTimeAt_some (by rw [heq])
    | none =>
      rw [heq] at h
      exact ih h

theorem tryTimeAt_build {t₁ t₂ : Str} (h₁ : timestamp12 t₁ = true)
    (h₂ : timestamp12 t₂ = true) :
    tryTimeAt (t₁ ++ arrowStr ++ t₂) = some (t₁, t₂) := by
  have l₁ : t₁.length = 12 := timestamp12_length h₁
  have l₂ : t₂.length = 12 := timestamp12_length h₂
  have harrow : arrowStr.length = 5 := rfl
  have htake : (t₁ ++ arrowStr ++ t₂).take 12 = t₁ := by
    rw [List.append_assoc]
    exact List.take_left' l₁
  have hdrop12 : (t₁ ++ arrowStr ++ t₂).drop 12 = arrowStr ++ t₂ := by
    rw [List.append_assoc]
    exact List.drop_left' l₁
  have hdrop17 : (t₁ ++ arrowStr ++ t₂).drop 17 = t₂ := by
    have : (t₁ ++ arrowStr ++ t₂).drop 17 = ((t₁ ++ arrowStr ++ t₂).drop 12).drop 5 := by
      rw [List.drop_drop]
    rw [this, hdrop12]
    exact List.drop_left' harrow
  unfold tryTimeAt
  rw [htake, hdrop12, hdrop17, List.take_left' harrow, ← l₂, List.take_length]
  rw [if_pos ⟨h₁, rfl, h₂⟩]

theorem findTimeMatch_build {t₁ t₂ : Str} (h₁ : timestamp12 t₁ = true)
    (h₂ : timestamp12 t₂ = true) :
    findTimeMatch (t₁ ++ arrowStr ++ t₂) = some (t₁, t₂) := by
  have htry := tryTimeAt_build h₁ h₂
  obtain ⟨c, r, hs⟩ : ∃ c r, t₁ = c :: r := by
    cases ht : t₁ with
    | nil => rw [ht] at h₁; cases h₁
    | cons c r => exact ⟨c, r, rfl⟩
  have he : t₁ ++ arrowStr ++ t₂ = c :: (r ++ arrowStr ++ t₂) := by
    rw [hs]
    simp
  rw [he] at htry ⊢
  rw [findTimeMatch, htry]

/-! ## Shape of parse output -/

theorem parseBlock?_times {b : Str} {sub : SrtSubtitle} (h : parseBlock? b = some sub) :
    timestamp12 sub.startTime = true ∧ timestamp12 sub.endTime = true := by
  simp only [parseBlock?] at h
  split at h
  · cases h
  · rename_i hlen
    cases heq : findTimeMatch (((splitOnChar '\n' (jsTrim b)).drop 1).headD []) with
    | none => rw [heq] at h; cases h
    | some r =>
      obtain ⟨st, en⟩ := r
      rw [heq] at h
      injection h with h'
      subst h'
      exact findTimeMatch_some heq

theorem parseSrt_mem_times {s : Str} {sub : SrtSubtitle} (h : sub ∈ parseSrt s) :
    timestamp12 sub.startTime = true ∧ timestamp12 sub.endTime = true := by
  rw [parseSrt] at h
  obtain ⟨b, _, hb⟩ := List.mem_filterMap.mp h
  exact parseBlock?_times hb

theorem tsFormatErrors_nil {subs : List SrtSubtitle}
    (h : ∀ sub ∈ subs, timestamp12 sub.startTime = true ∧ timestamp12 sub.endTime = true) :
    tsFormatErrors subs = [] := by
  induction subs with
  | nil => rfl
  | cons sub rest ih =>
    rw [tsFormatErrors, if_pos (h sub (by simp)).1, if_pos (h sub (by simp)).2,
      ih fun x hx => h x (by simp [hx])]
    rfl

/-- Claim C9: every record returned by `parseSrt` has `startTime` and
`endTime` that exactly match the anchored pattern
`^\d{2}:\d{2}:\d{2},\d{3}$` (they are capture groups of that very
pattern), and consequently the two timestamp-format error branches of
`validateSrt` are unreachable: its error list is always just the
index-sequence and time-logic errors (or the no-subtitle error), with
no timestamp-format error for any input text. -/
theorem c9_parse_times_anchored (s : Str) :
    ((parseSrt s).all fun sub => timestamp12 sub.startTime && timestamp12 sub.endTime) = true
    ∧ tsFormatErrors (parseSrt s) = []
    ∧ (validateSrt s).errors = (if (parseSrt s).isEmpty then [noSubsMsg]
        else idxErrors 0 (parseSrt s) ++ timeLogicErrorsAux none (parseSrt s)) := by
  have hts : tsFormatErrors (parseSrt s) = [] :=
    tsFormatErrors_nil fun sub hsub => parseSrt_mem_times hsub
  refine ⟨?_, hts, ?_⟩
  · rw [List.all_eq_true]
    intro sub hsub
    have := parseSrt_mem_times hsub
    rw [this.1, this.2]
    rfl
  · simp only [validateSrt]
    split
    · rfl
    · rw [hts]
      simp

/-! ## Well-formed subtitle lists (claim C2) -/

/-- The text constraint as claim C2 words it: non-empty and containing
no blank line (a blank line is an empty line of the newline split: two
adjacent newlines or a newline at either end). -/
def textOkClaim (t : Str) : Bool :=
  !t.isEmpty && noNN t && decide (t.head? ≠ some '\n') &&
    decide (t.getLast? ≠ some '\n')

/-- The text's last character exists and is not JS whitespace. -/
def lastNonWs (t : Str) : Bool :=
  match t.getLast? with
  | some c => !jsWs c
  | none => false

/-- One record's well-formedness at 0-based position `k`: index is
exactly `k+1`, both timestamps have the fixed `HH:MM:SS,mmm` shape,
text is non-empty with no blank line. -/
def subOk (k : Nat) (s : SrtSubtitle) : Bool :=
  decide (s.index = some (Int.ofNat (k + 1))) && timestamp12 s.startTime &&
    timestamp12 s.endTime && textOkClaim s.text

def wfFrom (k : Nat) : List SrtSubtitle → Bool
  | [] => true
  | s :: rest => subOk k s && wfFrom (k + 1) rest

/-- Well-formedness exactly as claim C2 states it: positive `1..N`
indices in order, fixed-shape timestamps, non-empty text with no blank
line. -/
def wellFormedClaim (r : List SrtSubtitle) : Bool := wfFrom 0 r

/-- The amended well-formedness: claim C2's conditions plus "no record's
text ends in a whitespace character" (otherwise the `trim()` calls of
`parseSrt` erase that whitespace and the round trip fails). -/
def wellFormedAmended (r : List SrtSubtitle) : Bool :=
  wfFrom 0 r && r.all fun s => lastNonWs s.text

theorem wfFrom_cons (k : Nat) (s : SrtSubtitle) (rest : List SrtSubtitle) :
    wfFrom k (s :: rest) = (subOk k s && wfFrom (k + 1) rest) := rfl

/-- The block text `generateSrt` emits for one record, without the
trailing newline of the template. -/
def coreBlock (s : SrtSubtitle) : Str :=
  numToStr s.index ++ '\n' :: (s.startTime ++ arrowStr ++ s.endTime) ++ '\n' :: s.text

theorem generateSrt_eq_cores (r : List SrtSubtitle) :
    generateSrt r = joinSep ['\n'] (r.map fun s => coreBlock s ++ ['\n']) := by
  rw [generateSrt]
  congr 1
  exact List.map_congr_left fun s _ => by simp [coreBlock]

theorem coreBlock_assoc (s : SrtSubtitle) :
    coreBlock s = numToStr s.index ++
      '\n' :: ((s.startTime ++ arrowStr ++ s.endTime) ++ '\n' :: s.text) := by
  simp [coreBlock]

theorem mem_of_getLast?_eq {α : Type} {l : List α} {a : α} (h : l.getLast? = some a) :
    a ∈ l := by
  obtain ⟨hne, rfl⟩ := List.mem_getLast?_eq_getLast (Option.mem_def.mpr h)
  exact List.getLast_mem hne

theorem numToStr_ofNat {s : SrtSubtitle} {n : Nat}
    (h : s.index = some (Int.ofNat n)) : numToStr s.index = natToDec n := by
  rw [h, numToStr, intToStr, if_neg (by simp [Int.ofNat_eq_natCast])]
  simp [Int.ofNat_eq_natCast]

theorem textOkClaim_spec {t : Str} (h : textOkClaim t = true) :
    t ≠ [] ∧ noNN t = true ∧ t.head? ≠ some '\n' ∧ t.getLast? ≠ some '\n' := by
  simp only [textOkClaim, Bool.and_eq_true, Bool.not_eq_true', List.isEmpty_eq_false,
    decide_eq_true_eq] at h
  exact ⟨h.1.1.1, h.1.1.2, h.1.2, h.2⟩

theorem lastNonWs_spec {t : Str} (h : lastNonWs t = true) :
    ∃ d, t.getLast? = some d ∧ jsWs d = false := by
  rw [lastNonWs] at h
  cases hl : t.getLast? with
  | none => rw [hl] at h; cases h
  | some d =>
    rw [hl] at h
    exact ⟨d, rfl, by simpa using h⟩

theorem natToDec_no_nl (n : Nat) : ∀ c ∈ natToDec n, c ≠ '\n' :=
  fun c hc => ne_of_isDigit (natToDec_digits n c hc) (by decide)

theorem timeLine_no_nl {st en : Str} (hst : timestamp12 st = true)
    (hen : timestamp12 en = true) :
    ∀ c ∈ st ++ arrowStr ++ en, c ≠ '\n' := by
  intro c hc
  rw [List.append_assoc, List.mem_append, List.mem_append] at hc
  rcases hc with hc | hc | hc
  · exact timestamp12_no_nl hst c hc
  · intro he
    subst he
    exact absurd hc (by decide)
  · exact timestamp12_no_nl hen c hc

theorem timestamp12_head {t : Str} (h : timestamp12 t = true) :
    ∃ c rest, t = c :: rest ∧ c ≠ '\n' := by
  cases ht : t with
  | nil => rw [ht] at h; cases h
  | cons c rest =>
    refine ⟨c, rest, rfl, ?_⟩
    exact timestamp12_no_nl h c (by rw [ht]; simp)

/-- All the record-level facts the round trip needs, with the index as
an explicit natural. -/
theorem parseBlock?_coreBlock {s : SrtSubtitle} {n : Nat}
    (hidx : s.index = some (Int.ofNat n))
    (hst : timestamp12 s.startTime = true) (hen : timestamp12 s.endTime = true)
    (htext : textOkClaim s.text = true) (hlast : lastNonWs s.text = true) :
    parseBlock? (coreBlock s) = some s := by
  obtain ⟨htne, hnoNN, hthead, _⟩ := textOkClaim_spec htext
  obtain ⟨d, hdlast, hdws⟩ := lastNonWs_spec hlast
  have hnum : numToStr s.index = natToDec n := numToStr_ofNat hidx
  obtain ⟨a₀, arest, hA⟩ : ∃ a₀ arest, natToDec n = a₀ :: arest := by
    cases h : natToDec n with
    | nil => exact absurd h (natToDec_ne_nil n)
    | cons a₀ arest => exact ⟨a₀, arest, rfl⟩
  have ha₀ : isDigit a₀ = true := natToDec_digits n a₀ (by rw [hA]; simp)
  obtain ⟨t₀, trest, hT⟩ : ∃ t₀ trest, s.text = t₀ :: trest := by
    cases h : s.text with
    | nil => exact absurd h htne
    | cons t₀ trest => exact ⟨t₀, trest, rfl⟩
  -- the block's head character and last character, for the trim
  have hhead : (coreBlock s).head? = some a₀ := by
    rw [coreBlock_assoc, hnum, hA]
    rfl
  have hlastCore : (coreBlock s).getLast? = some d := by
    rw [coreBlock, List.append_assoc]
    rw [List.getLast?_append_of_ne_nil _ (by simp)]
    rw [List.getLast?_append_of_ne_nil _ (by simp)]
    rw [hT, List.getLast?_cons_cons, ← hT]
    exact hdlast
  have htrim : jsTrim (coreBlock s) = coreBlock s :=
    jsTrim_eq_self hhead (jsWs_false_of_isDigit ha₀) hlastCore hdws
  have hlines : splitOnChar '\n' (jsTrim (coreBlock s)) =
      natToDec n :: (s.startTime ++ arrowStr ++ s.endTime) ::
        splitOnChar '\n' s.text := by
    rw [htrim, coreBlock_assoc, hnum]
    rw [splitOnChar_append (natToDec_no_nl n)]
    rw [splitOnChar_append (timeLine_no_nl hst hen)]
  have hlen : ¬((splitOnChar '\n' (jsTrim (coreBlock s))).length < 3) := by
    rw [hlines]
    simp only [List.length_cons]
    cases h : splitOnChar '\n' s.text with
    | nil => exact absurd h (splitOnChar_ne_nil '\n' s.text)
    | cons x xs => simp
  simp only [parseBlock?]
  rw [if_neg hlen, hlines]
  simp only [List.headD_cons, List.drop_succ_cons, List.drop_zero, List.headD_cons]
  rw [findTimeMatch_build hst hen, joinSep_splitOnChar '\n' s.text,
    show parseIntJs (natToDec n) = some (Int.ofNat n) from parseIntJs_natToDec n, ← hidx]

theorem subOk_spec {k : Nat} {s : SrtSubtitle} (h : subOk k s = true) :
    s.index = some (Int.ofNat (k + 1)) ∧ timestamp12 s.startTime = true ∧
      timestamp12 s.endTime = true ∧ textOkClaim s.text = true := by
  simp only [subOk, Bool.and_eq_true, decide_eq_true_eq] at h
  exact ⟨h.1.1.1, h.1.1.2, h.1.2, h.2⟩

theorem wfFrom_mem_facts : ∀ (r : List SrtSubtitle) (k : Nat), wfFrom k r = true →
    ∀ s ∈ r, (∃ n : Nat, s.index = some (Int.ofNat n)) ∧
      timestamp12 s.startTime = true ∧ timestamp12 s.endTime = true ∧
      textOkClaim s.text = true := by
  intro r
  induction r with
  | nil => intro k _ s hs; cases hs
  | cons s₀ rest ih =>
    intro k h s hs
    rw [wfFrom_cons, Bool.and_eq_true] at h
    rcases List.mem_cons.mp hs with rfl | hs'
    · obtain ⟨hidx, hst, hen, ht⟩ := subOk_spec h.1
      exact ⟨⟨k + 1, hidx⟩, hst, hen, ht⟩
    · exact ih (k + 1) h.2 s hs'

theorem coreBlock_head_digit {s : SrtSubtitle} {n : Nat}
    (hidx : s.index = some (Int.ofNat n)) :
    ∃ c, (coreBlock s).head? = some c ∧ isDigit c = true := by
  obtain ⟨a₀, arest, hA⟩ : ∃ a₀ arest, natToDec n = a₀ :: arest := by
    cases h : natToDec n with
    | nil => exact absurd h (natToDec_ne_nil n)
    | cons a₀ arest => exact ⟨a₀, arest, rfl⟩
  refine ⟨a₀, ?_, natToDec_digits n a₀ (by rw [hA]; simp)⟩
  rw [coreBlock_assoc, numToStr_ofNat hidx, hA]
  rfl

theorem coreBlock_ne_nil {s : SrtSubtitle} {n : Nat}
    (hidx : s.index = some (Int.ofNat n)) : coreBlock s ≠ [] := by
  obtain ⟨c, hc, _⟩ := coreBlock_head_digit hidx
  intro h0
  rw [h0] at hc
  cases hc

theorem coreBlock_getLast_nonWs {s : SrtSubtitle}
    (htext : textOkClaim s.text = true) (hlast : lastNonWs s.text = true) :
    ∃ d, (coreBlock s).getLast? = some d ∧ jsWs d = false := by
  obtain ⟨htne, _, _, _⟩ := textOkClaim_spec htext
  obtain ⟨d, hdlast, hdws⟩ := lastNonWs_spec hlast
  obtain ⟨t₀, trest, hT⟩ : ∃ t₀ trest, s.text = t₀ :: trest := by
    cases h : s.text with
    | nil => exact absurd h htne
    | cons t₀ trest => exact ⟨t₀, trest, rfl⟩
  refine ⟨d, ?_, hdws⟩
  rw [coreBlock, List.append_assoc]
  rw [List.getLast?_append_of_ne_nil _ (by simp)]
  rw [List.getLast?_append_of_ne_nil _ (by simp)]
  rw [hT, List.getLast?_cons_cons, ← hT]
  exact hdlast

theorem coreBlock_noNN {s : SrtSubtitle} {n : Nat}
    (hidx : s.index = some (Int.ofNat n))
    (hst : timestamp12 s.startTime = true) (hen : timestamp12 s.endTime = true)
    (htext : textOkClaim s.text = true) : noNN (coreBlock s) = true := by
  obtain ⟨htne, hnoNN, hthead, _⟩ := textOkClaim_spec htext
  obtain ⟨c, crest, hstEq, hcne⟩ := timestamp12_head hst
  rw [coreBlock_assoc, numToStr_ofNat hidx]
  refine noNN_append_sep (natToDec_no_nl n) ?_ ?_
  · rw [hstEq]
    intro hcontra
    simp only [List.cons_append, List.head?_append, List.head?_cons] at hcontra
    exact hcne (by injection hcontra)
  · exact noNN_append_sep (timeLine_no_nl hst hen) hthead hnoNN

theorem filterMap_coreBlocks : ∀ (r : List SrtSubtitle) (k : Nat), wfFrom k r = true →
    (∀ s ∈ r, lastNonWs s.text = true) →
    List.filterMap parseBlock? (r.map coreBlock) = r := by
  intro r
  induction r with
  | nil => intro k _ _; rfl
  | cons s rest ih =>
    intro k h hl
    rw [wfFrom_cons, Bool.and_eq_true] at h
    obtain ⟨hidx, hst, hen, ht⟩ := subOk_spec h.1
    rw [List.map_cons,
      List.filterMap_cons_some (parseBlock?_coreBlock hidx hst hen ht (hl s (by simp))),
      ih (k + 1) h.2 fun x hx => hl x (by simp [hx])]

/-- The round trip itself, under the amended well-formedness. -/
theorem parseSrt_generateSrt {r : List SrtSubtitle} (h : wellFormedAmended r = true) :
    parseSrt (generateSrt r) = r := by
  rw [wellFormedAmended, Bool.and_eq_true] at h
  obtain ⟨hwf, hlastAll⟩ := h
  have hlast : ∀ s ∈ r, lastNonWs s.text = true := List.all_eq_true.mp hlastAll
  cases r with
  | nil => rfl
  | cons s₀ rest =>
    have hfacts := wfFrom_mem_facts (s₀ :: rest) 0 hwf
    have hcore : ∀ b ∈ (s₀ :: rest).map coreBlock, b ≠ [] ∧ noNN b = true ∧
        ∃ d, b.getLast? = some d ∧ jsWs d = false := by
      intro b hb
      obtain ⟨s, hs, rfl⟩ := List.mem_map.mp hb
      obtain ⟨⟨n, hidx⟩, hst, hen, ht⟩ := hfacts s hs
      exact ⟨coreBlock_ne_nil hidx, coreBlock_noNN hidx hst hen ht,
        coreBlock_getLast_nonWs ht (hlast s hs)⟩
    have hmapeq : ((s₀ :: rest).map fun s => coreBlock s ++ ['\n']) =
        ((s₀ :: rest).map coreBlock).map (· ++ ['\n']) := by
      rw [List.map_map]
      rfl
    obtain ⟨⟨n₀, hidx₀⟩, _, _, _⟩ := hfacts s₀ (by simp)
    obtain ⟨c₀, hc₀, hc₀d⟩ := coreBlock_head_digit hidx₀
    have hJhead : (joinSep ['\n', '\n'] ((s₀ :: rest).map coreBlock)).head? = some c₀ := by
      rw [List.map_cons, joinSep_head? _ _ _ (coreBlock_ne_nil hidx₀)]
      exact hc₀
    obtain ⟨y, hyLast, hyEq⟩ := joinSep_getLast? ['\n', '\n'] (coreBlock s₀)
      (rest.map coreBlock) (by
        intro b hb
        exact (hcore b (by rw [List.map_cons]; exact hb)).1)
    have hymem : y ∈ (s₀ :: rest).map coreBlock := by
      rw [List.map_cons]
      exact mem_of_getLast?_eq hyLast
    obtain ⟨d, hd, hdws⟩ := (hcore y hymem).2.2
    have hJlast : (joinSep ['\n', '\n'] ((s₀ :: rest).map coreBlock)).getLast? = some d := by
      rw [List.map_cons, hyEq, hd]
    rw [generateSrt_eq_cores, hmapeq, joinSep_map_nl _ (by simp), parseSrt,
      jsTrim_append_nl hJhead (jsWs_false_of_isDigit hc₀d) hJlast hdws,
      splitOnNN_join _ (by simp) (by
        intro b hb
        obtain ⟨hb1, hb2, d', hd', hdws'⟩ := hcore b hb
        refine ⟨hb2, ?_⟩
        rw [hd']
        intro hcontra
        have : d' = '\n' := by injection hcontra
        subst this
        cases hdws')]
    exact filterMap_coreBlocks (s₀ :: rest) 0 hwf hlast

/-- Claim C2, as stated, is refuted: the record list
`[{index 1, 00:00:00,000 --> 00:00:01,000, text "a "}]` is well-formed
in the claim's sense (positive 1..N index, fixed-shape timestamps,
non-empty text with no blank line), yet `parseSrt (generateSrt r)` is
not `r`: the `trim()` calls of `parseSrt` erase the trailing space of
the text. -/
theorem c2_roundtrip_claim_cex :
    wellFormedClaim
        [⟨some 1, "00:00:00,000".data, "00:00:01,000".data, "a ".data⟩] = true ∧
      parseSrt (generateSrt
        [⟨some 1, "00:00:00,000".data, "00:00:01,000".data, "a ".data⟩]) ≠
        [⟨some 1, "00:00:00,000".data, "00:00:01,000".data, "a ".data⟩] := by
  decide

/-- Claim C2 (amended): for every list of subtitle records with
positive `1..N` indices, fixed `HH:MM:SS,mmm`-shape timestamps, and
non-empty text that contains no blank line *and does not end in a
whitespace character*, `parseSrt (generateSrt r) = r` field-for-field,
and hence `generateSrt (parseSrt (generateSrt r)) = generateSrt r`. -/
theorem c2_roundtrip_amended (r : List SrtSubtitle) (h : wellFormedAmended r = true) :
    parseSrt (generateSrt r) = r ∧
      generateSrt (parseSrt (generateSrt r)) = generateSrt r := by
  refine ⟨parseSrt_generateSrt h, ?_⟩
  rw [parseSrt_generateSrt h]

/-- Witness for `c2_roundtrip_amended` at the two-record example of the
spec's end-to-end scenario. -/
theorem c2_roundtrip_amended_witness :
    wellFormedAmended
        [⟨some 1, "00:00:00,000".data, "00:00:03,000".data, "Hello world".data⟩,
         ⟨some 2, "00:00:03,000".data, "00:00:06,000".data, "This is a test".data⟩] = true ∧
      (parseSrt (generateSrt
          [⟨some 1, "00:00:00,000".data, "00:00:03,000".data, "Hello world".data⟩,
           ⟨some 2, "00:00:03,000".data, "00:00:06,000".data, "This is a test".data⟩]) =
        [⟨some 1, "00:00:00,000".data, "00:00:03,000".data, "Hello world".data⟩,
         ⟨some 2, "00:00:03,000".data, "00:00:06,000".data, "This is a test".data⟩] ∧
      generateSrt (parseSrt (generateSrt
          [⟨some 1, "00:00:00,000".data, "00:00:03,000".data, "Hello world".data⟩,
           ⟨some 2, "00:00:03,000".data, "00:00:06,000".data, "This is a test".data⟩])) =
        generateSrt
          [⟨some 1, "00:00:00,000".data, "00:00:03,000".data, "Hello world".data⟩,
           ⟨some 2, "00:00:03,000".data, "00:00:06,000".data, "This is a test".data⟩]) :=
  ⟨by decide, c2_roundtrip_amended _ (by decide)⟩

/-- Claim C3, as stated, is refuted: on an input whose second block has
both an index gap (index 3 in position 2) and a malformed start
timestamp (`0:00:02,000`, one-digit hour), `validateSrt` reports *no*
errors at all — the malformed block is silently dropped by `parseSrt`,
the surviving single block is perfectly numbered, and `isValid` is
`true` — rather than one index error plus one error per malformed
timestamp field with `isValid = false`. -/
theorem c3_validate_both_defects_cex :
    validateSrt
        "1\n00:00:00,000 --> 00:00:01,000\nA\n\n3\n0:00:02,000 --> 00:00:03,000\nB".data =
      ⟨true, []⟩ := by
  decide

/-- Claim C3 (amended): `validateSrt` does accumulate every applicable
violation of the *parsed* records in a single pass — an input with two
index-sequence violations, a start-after-end violation and an overlap
yields all four errors at once, `isValid = false` — but a block whose
timestamp deviates from the fixed `HH:MM:SS,mmm` shape is dropped at
parse time, so a timestamp-format error is never among them; an input
with both an index gap and a malformed timestamp yields only the errors
derivable from the surviving blocks (here: none, `isValid = true`). -/
theorem c3_validate_accumulates_amended :
    validateSrt
        "2\n00:00:05,000 --> 00:00:04,000\nA\n\n5\n00:00:03,000 --> 00:00:06,000\nB".data =
      ⟨false, [idxErrMsg 1, idxErrMsg 2, orderMsg (some 2), overlapMsg (some 5)]⟩ ∧
    validateSrt
        "1\n00:00:00,000 --> 00:00:01,000\nA\n\n3\n0:00:02,000 --> 00:00:03,000\nB".data =
      ⟨true, []⟩ := by
  decide

/-- Claim C4, as stated, is refuted: a time line with a 3-digit hour is
not accepted with the full hour field intact.  With
`100:00:00,000 --> 00:00:05,000` the block is accepted but the captured
start time is `00:00:00,000` — the regex match starts inside the hour
digit run, truncating the hour — and with 3-digit hours on both sides
(`100:00:00,000 --> 110:00:01,000`) the pattern never matches and the
block is dropped entirely. -/
theorem c4_hour_width_cex :
    parseSrt "1\n100:00:00,000 --> 00:00:05,000\nhi".data =
        [⟨some 1, "00:00:00,000".data, "00:00:05,000".data, "hi".data⟩] ∧
      (∀ sub ∈ parseSrt "1\n100:00:00,000 --> 00:00:05,000\nhi".data,
        sub.startTime ≠ "100:00:00,000".data) ∧
      parseSrt "1\n100:00:00,000 --> 110:00:01,000\nhi".data = [] := by
  decide

/-- Claim C4 (amended): the timestamp fields the Subtitle Format Engine
accepts have an hour field of *exactly* 2 digits (total 12 characters):
every capture `parseSrt` ever returns matches that exact shape, a block
whose time line has a 3-or-more-digit hour is either dropped or parsed
with the capture truncated to a 12-character window inside the digit
run, and `validateSrt` reports no timestamp-format error in any case. -/
theorem c4_hour_width_amended :
    (∀ s : Str, ((parseSrt s).all fun sub =>
        timestamp12 sub.startTime && timestamp12 sub.endTime) = true) ∧
      parseSrt "1\n100:00:00,000 --> 00:00:05,000\nhi".data =
        [⟨some 1, "00:00:00,000".data, "00:00:05,000".data, "hi".data⟩] ∧
      parseSrt "1\n100:00:00,000 --> 110:00:01,000\nhi".data = [] ∧
      validateSrt "1\n100:00:00,000 --> 00:00:05,000\nhi".data = ⟨true, []⟩ := by
  refine ⟨?_, by decide, by decide, by decide⟩
  intro s
  rw [List.all_eq_true]
  intro sub hsub
  have := parseSrt_mem_times hsub
  rw [this.1, this.2]
  rfl

/-- Claim C10: `parseSrt` performs no validity check on a block's first
line.  On `abc\n00:00:00,000 --> 00:00:01,000\nhi` it accepts the block
and returns a record whose `index` is NaN (`parseInt('abc')`), not a
positive integer — violating the data model's positive-integer index
invariant. -/
theorem c10_nonnumeric_index_nan :
    parseSrt "abc\n00:00:00,000 --> 00:00:01,000\nhi".data =
        [⟨none, "00:00:00,000".data, "00:00:01,000".data, "hi".data⟩] ∧
      (parseSrt "abc\n00:00:00,000 --> 00:00:01,000\nhi".data).map (·.index) =
        [none] := by
  decide

/-! ## Stage-merge lemmas and claims C5, C6 -/

theorem ofirst_idem {α : Type} (a b : Option α) :
    ofirst (ofirst a b) b = ofirst a b := by
  cases a <;> cases b <;> rfl

theorem ofirst_self {α : Type} (a : Option α) : ofirst a a = a := by
  cases a <;> rfl

theorem ofirst_some_getD {α : Type} (a : Option α) (d : α) :
    ofirst a (some d) = some (a.getD d) := by
  cases a <;> rfl

theorem ofirst_none_right {α : Type} (a : Option α) : ofirst a none = a := by
  cases a <;> rfl

theorem mergeStage_idem (d a : StageData) :
    mergeStage d (mergeStage d a) = mergeStage d a := by
  simp [mergeStage, ofirst_idem]

theorem mergeStage_self (d : StageData) : mergeStage d d = d := by
  simp [mergeStage, ofirst_self]

def defName : StageKey → Str
  | .initialTranscription => initName
  | .topicAnalysis => topicName
  | .dictionaryCreation => dictName
  | .finalTranscription => finalName

def defDesc : StageKey → Str
  | .initialTranscription => initDesc
  | .topicAnalysis => topicDesc
  | .dictionaryCreation => dictDesc
  | .finalTranscription => finalDesc

/-- Claim C5: with no argument the merge returns exactly the four stage
keys, each pending with its canonical default name and description; for
any actual-stages argument, a key it does not supply stays exactly its
default, and a supplied entry is shallow-merged over the default —
supplied `name`, `status`, `result`, `error` win, an absent
`description` is retained from the default (and `result`/`error` are
exactly the supplied ones, the defaults having none). -/
theorem c5_merge_defaults_override :
    (∀ k : StageKey, getMerged (mergeStagesWithDefaults none) k =
        ⟨some (defName k), some .pending, some (defDesc k), none, none⟩)
    ∧ (∀ (a : StageMap) (k : StageKey), getStageEntry a k = none →
        getMerged (mergeStagesWithDefaults (some a)) k =
          ⟨some (defName k), some .pending, some (defDesc k), none, none⟩)
    ∧ (∀ (a : StageMap) (k : StageKey) (q : StageData), getStageEntry a k = some q →
        getMerged (mergeStagesWithDefaults (some a)) k =
          ⟨some (q.name.getD (defName k)), some (q.status.getD .pending),
           some (q.description.getD (defDesc k)), q.result, q.error⟩) := by
  refine ⟨?_, ?_, ?_⟩
  · intro k
    cases k <;> rfl
  · intro a k h
    cases k <;>
      simp only [getStageEntry] at h <;>
      simp [mergeStagesWithDefaults, getMerged, h, defaultInitial, defaultTopic,
        defaultDict, defaultFinal, defName, defDesc]
  · intro a k q h
    cases k <;>
      simp only [getStageEntry] at h <;>
      simp [mergeStagesWithDefaults, getMerged, h, mergeStage, defaultInitial,
        defaultTopic, defaultDict, defaultFinal, defName, defDesc,
        ofirst_some_getD, ofirst_none_right]

/-- Witness for `c5_merge_defaults_override`: the override example of
the stage-merger test — a supplied `initialTranscription` with a name,
`completed` status and a result is merged over the default keeping the
default description, while an unsupplied key stays at its default. -/
theorem c5_merge_defaults_override_witness :
    getMerged (mergeStagesWithDefaults
        (some ⟨some ⟨some ("X".data), some .completed, none, some ("Y".data), none⟩,
               none, none, none⟩)) .initialTranscription =
      ⟨some ("X".data), some .completed, some initDesc, some ("Y".data), none⟩
    ∧ getMerged (mergeStagesWithDefaults
        (some ⟨some ⟨some ("X".data), some .completed, none, some ("Y".data), none⟩,
               none, none, none⟩)) .topicAnalysis =
      ⟨some topicName, some .pending, some topicDesc, none, none⟩ := by
  constructor
  · rw [c5_merge_defaults_override.2.2
      ⟨some ⟨some ("X".data), some .completed, none, some ("Y".data), none⟩,
       none, none, none⟩ .initialTranscription
      ⟨some ("X".data), some .completed, none, some ("Y".data), none⟩ rfl]
    rfl
  · rw [c5_merge_defaults_override.2.1
      ⟨some ⟨some ("X".data), some .completed, none, some ("Y".data), none⟩,
       none, none, none⟩ .topicAnalysis rfl]
    rfl

/-- Claim C6: the stage merge never drops a key — its result always has
exactly the four keys in order — and it is idempotent: merging the
(complete) result of a merge again changes nothing. -/
theorem c6_merge_idempotent_total (a : Option StageMap) :
    (mergedEntries (mergeStagesWithDefaults a)).map Prod.fst =
      [.initialTranscription, .topicAnalysis, .dictionaryCreation, .finalTranscription]
    ∧ mergeStagesWithDefaults (some (toStageMap (mergeStagesWithDefaults a))) =
      mergeStagesWithDefaults a := by
  refine ⟨rfl, ?_⟩
  cases a with
  | none => decide
  | some m =>
    obtain ⟨i, t, dc, f⟩ := m
    simp only [mergeStagesWithDefaults, toStageMap]
    cases i <;> cases t <;> cases dc <;> cases f <;>
      simp [mergeStage_idem, mergeStage_self]

/-! ## Pipeline claims C7, C8, C1 -/

theorem isPrefixOf_self (l : Str) : l.isPrefixOf l = true := by
  induction l with
  | nil => rfl
  | cons c rest ih => simp [List.isPrefixOf, ih]

theorem containsSub_append_self (e : Str) : ∀ x : Str, containsSub e (x ++ e) = true := by
  intro x
  induction x with
  | nil =>
    rw [List.nil_append]
    cases e with
    | nil => rfl
    | cons c rest =>
      rw [containsSub, isPrefixOf_self]
      rfl
  | cons c rest ih =>
    rw [List.cons_append, containsSub, ih]
    simp

/-- Claim C7: when the basic path's external transcription call succeeds
with raw text `t` (after a successful file staging), the final job
update sets `status = completed`, `result = t`,
`srtValidation = validateSrt t`, and `subtitles` to the parsed list
exactly when the validation is `isValid` and to `undefined` otherwise —
a structurally invalid result still yields `completed`, never `error`. -/
theorem c7_basic_success_final (file : Job) (calls : BasicCalls) (p t : Str)
    (h1 : calls.saveTemp = .ok p) (h2 : calls.transcribe = .ok t) :
    (startBasicTranscription file calls).status = .completed ∧
    (startBasicTranscription file calls).result = some t ∧
    (startBasicTranscription file calls).srtValidation = some (validateSrt t) ∧
    (startBasicTranscription file calls).subtitles =
      (if (validateSrt t).isValid then some (parseSrt t) else none) ∧
    (startBasicTranscription file calls).status ≠ .error ∧
    (startBasicTranscription file calls).progress = none := by
  obtain ⟨save, tr⟩ := calls
  simp only at h1 h2
  subst h1
  subst h2
  refine ⟨rfl, rfl, rfl, ?_, by simp [startBasicTranscription], rfl⟩
  simp only [startBasicTranscription]

/-- Witness for `c7_basic_success_final` on a structurally invalid raw
result (`"x"`): the job still completes, with `subtitles` withheld. -/
theorem c7_basic_success_final_witness :
    (startBasicTranscription
        ⟨⟨20, false, true, false, none⟩, .idle, none, none, none, none, none, none, none, none⟩
        ⟨.ok ("p".data), .ok ("x".data)⟩).status = .completed ∧
    (startBasicTranscription
        ⟨⟨20, false, true, false, none⟩, .idle, none, none, none, none, none, none, none, none⟩
        ⟨.ok ("p".data), .ok ("x".data)⟩).result = some ("x".data) ∧
    (startBasicTranscription
        ⟨⟨20, false, true, false, none⟩, .idle, none, none, none, none, none, none, none, none⟩
        ⟨.ok ("p".data), .ok ("x".data)⟩).srtValidation = some (validateSrt ("x".data)) ∧
    (startBasicTranscription
        ⟨⟨20, false, true, false, none⟩, .idle, none, none, none, none, none, none, none, none⟩
        ⟨.ok ("p".data), .ok ("x".data)⟩).subtitles =
      (if (validateSrt ("x".data)).isValid then some (parseSrt ("x".data)) else none) ∧
    (startBasicTranscription
        ⟨⟨20, false, true, false, none⟩, .idle, none, none, none, none, none, none, none, none⟩
        ⟨.ok ("p".data), .ok ("x".data)⟩).status ≠ .error ∧
    (startBasicTranscription
        ⟨⟨20, false, true, false, none⟩, .idle, none, none, none, none, none, none, none, none⟩
        ⟨.ok ("p".data), .ok ("x".data)⟩).progress = none :=
  c7_basic_success_final _ _ ("p".data) ("x".data) rfl rfl

/-- Claim C8: when either awaited external call of the basic path fails
(the temporary save or the transcription), the job's final state has
`status = error`, an error message that includes the failure cause, and
`progress` cleared; the failure is absorbed by the catch block — the
pipeline is a total function into a final `Job`, never an escaped
exception. -/
theorem c8_basic_failure_final (file : Job) (calls : BasicCalls) (e : Str)
    (h : calls.saveTemp = .error e ∨
      ((∃ p, calls.saveTemp = .ok p) ∧ calls.transcribe = .error e)) :
    (startBasicTranscription file calls).status = .error ∧
    (startBasicTranscription file calls).error = some (basicErrPrefix ++ e) ∧
    (∃ m, (startBasicTranscription file calls).error = some m ∧
      containsSub e m = true) ∧
    (startBasicTranscription file calls).progress = none := by
  obtain ⟨save, tr⟩ := calls
  rcases h with h | ⟨⟨p, hp⟩, h⟩
  · simp only at h
    subst h
    exact ⟨rfl, rfl, ⟨basicErrPrefix ++ e, rfl, containsSub_append_self e basicErrPrefix⟩, rfl⟩
  · simp only at hp h
    subst hp
    subst h
    exact ⟨rfl, rfl, ⟨basicErrPrefix ++ e, rfl, containsSub_append_self e basicErrPrefix⟩, rfl⟩

/-- Witness for `c8_basic_failure_final`: the transcription call rejects
with cause `boom`. -/
theorem c8_basic_failure_final_witness :
    (startBasicTranscription
        ⟨⟨20, false, true, false, none⟩, .idle, none, none, none, none, none, none, none, none⟩
        ⟨.ok ("p".data), .error ("boom".data)⟩).status = .error ∧
    (startBasicTranscription
        ⟨⟨20, false, true, false, none⟩, .idle, none, none, none, none, none, none, none, none⟩
        ⟨.ok ("p".data), .error ("boom".data)⟩).error =
      some (basicErrPrefix ++ "boom".data) ∧
    (∃ m, (startBasicTranscription
        ⟨⟨20, false, true, false, none⟩, .idle, none, none, none, none, none, none, none, none⟩
        ⟨.ok ("p".data), .error ("boom".data)⟩).error = some m ∧
      containsSub ("boom".data) m = true) ∧
    (startBasicTranscription
        ⟨⟨20, false, true, false, none⟩, .idle, none, none, none, none, none, none, none, none⟩
        ⟨.ok ("p".data), .error ("boom".data)⟩).progress = none :=
  c8_basic_failure_final _ _ ("boom".data) (Or.inr ⟨⟨"p".data, rfl⟩, rfl⟩)

/-- A fresh job in the advanced configuration (no stages yet, no custom
dictionary), about to be run for the first time. -/
def freshAdvancedJob : Job :=
  ⟨⟨20, false, true, true, none⟩, .idle, none, none, none, none, none, none, none, none⟩

/-- Run outcomes where staging and the initial transcription succeed and
the topic-analysis call rejects with `boom`. -/
def topicFailCalls : AdvCalls :=
  ⟨.ok ("/tmp/audio.wav".data), .ok ("T".data), .error ("boom".data),
   .ok [], .ok [], .ok [], .ok []⟩

/-- Claim C1 concerns this job: the advanced path on a fresh job where
the topic-analysis call rejects after the initial transcription
completed.  What the code actually leaves behind: `Job.status = error`
with the failure cause, no later stage executed (`dictionary` empty, no
dictionary/final stage entries) — but `Job.stages` is
`{ topicAnalysis: {status: processing} }` only.  The catch block never
marks any stage `error`, and every `...audioFile.stages` spread reads
the pre-run prop captured by the closure (stale in React), so the
`initialTranscription: completed` entry written earlier is dropped from
the final map instead of being preserved. -/
theorem c1_topic_failure_stage_states :
    (startAdvancedTranscription freshAdvancedJob topicFailCalls).status = .error ∧
    (startAdvancedTranscription freshAdvancedJob topicFailCalls).error =
      some (advErrPrefix ++ "boom".data) ∧
    (startAdvancedTranscription freshAdvancedJob topicFailCalls).stages =
      some ⟨none, some ⟨some topicName, some .processing, none, none, none⟩, none, none⟩ ∧
    jobStageStatus (startAdvancedTranscription freshAdvancedJob topicFailCalls)
      .initialTranscription = none ∧
    jobStageStatus (startAdvancedTranscription freshAdvancedJob topicFailCalls)
      .topicAnalysis = some (some .processing) ∧
    jobStageStatus (startAdvancedTranscription freshAdvancedJob topicFailCalls)
      .dictionaryCreation = none ∧
    jobStageStatus (startAdvancedTranscription freshAdvancedJob topicFailCalls)
      .finalTranscription = none ∧
    (startAdvancedTranscription freshAdvancedJob topicFailCalls).dictionary = none ∧
    (startAdvancedTranscription freshAdvancedJob topicFailCalls).result = none ∧
    ¬(jobStageStatus (startAdvancedTranscription freshAdvancedJob topicFailCalls)
        .topicAnalysis = some (some .error)) ∧
    ¬(jobStageStatus (startAdvancedTranscription freshAdvancedJob topicFailCalls)
        .initialTranscription = some (some .completed)) := by
  decide
